import Mathlib

/-!
Verification of the bandit static-analysis core against its specification.

The Python sources are shallowly embedded:
* `PyExpr` models the fragment of the Python AST the analyzed functions
  inspect (`_ast.Name`, `_ast.Attribute`, `ast.Str`, `ast.List`, and an
  `other` constructor for every node kind the code treats as opaque).
* Alias tables (Python dicts from short name to qualified prefix) are
  association lists.
* Fallible Python code (code that can raise) is embedded in `Except`.
-/

/-- Fragment of the Python AST inspected by the embedded functions.
`other` stands for any node kind the source treats uniformly as
"anything else" (calls, binary operations, names bound at runtime, ...). -/
inductive PyExpr : Type
  | name (id : String)
  | attribute (value : PyExpr) (attr : String)
  | strLit (s : String)
  | listLit (elts : List PyExpr)
  | other (desc : String)

/-- A Python `ast.Call` node: the called target and the positional args. -/
structure CallNode where
  func : PyExpr
  args : List PyExpr

/-- Alias lookup, embedding `aliases[k]` guarded by `k in aliases`. -/
def aliasLookup (aliases : List (String × String)) (k : String) : Option String :=
  aliases.lookup k

/-- Embeds `bandit.core.utils.get_call_name(node, aliases)`:
a simple-name target is substituted through the alias table; an attribute
target gets a dotted alias-resolved base only when the base is itself a
simple name; every other target shape yields the empty string. -/
def getCallName (node : CallNode) (aliases : List (String × String)) : String :=
  match node.func with
  | .name id =>
      match aliasLookup aliases id with
      | some v => v
      | none => id
  | .attribute value attr =>
      let pfx : String :=
        match value with
        | .name id =>
            match aliasLookup aliases id with
            | some v => v ++ "."
            | none => id ++ "."
        | _ => ""
      pfx ++ attr
  | _ => ""

/-- Embeds `bandit.core.utils.get_qual_attr(node, aliases)`: for an
`Attribute` node, `deepgetattr(node, 'value.id')` succeeds exactly when the
base is a simple name (otherwise the `except` branch leaves the prefix
empty), and the function returns `"%s.%s" % (prefix, node.attr)`. -/
def getQualAttr (node : PyExpr) (aliases : List (String × String)) : String :=
  match node with
  | .attribute value attr =>
      let pfx : String :=
        match value with
        | .name id =>
            match aliasLookup aliases id with
            | some v => v
            | none => id
        | _ => ""
      pfx ++ "." ++ attr
  | _ => ""

/-- The severity constants `bandit.LOW / MEDIUM / HIGH`. -/
inductive Severity : Type
  | low
  | medium
  | high
  deriving DecidableEq, Repr

/-- One finding, as built by the plugin rules. -/
structure Issue where
  severity : Severity
  confidence : Severity
  text : String
  deriving DecidableEq, Repr

/-- Embeds `injection_shell._has_special_characters(command)`: the regex
`[{|\[;$\*\?` + backtick + `]` matches iff the command contains one of the
eight shell metacharacters. -/
def hasSpecialCharacters (command : String) : Bool :=
  command.toList.any (fun c => c ∈ ['{', '|', '[', ';', '$', '*', '?', '`'])

/-- Embeds `injection_shell._evaluate_shell_call(context)` given the first
positional argument node: a literal string is LOW without shell
metacharacters and MEDIUM with one; any non-literal first argument is HIGH. -/
def evaluateShellCall (firstArg : PyExpr) : Severity :=
  match firstArg with
  | .strLit s => if hasSpecialCharacters s then .medium else .low
  | _ => .high

/-- The `shell_injection` config section: three lists of de-aliased
qualified call names. -/
structure ShellConfig where
  subprocess : List String
  shell : List String
  noShell : List String

/-- The path delimiters `['/', '\\', '.']` of the partial-path plugin. -/
def partialPathDelims : List Char := ['/', '\\', '.']

/-- The issue built by `start_process_with_partial_path` when it fires. -/
def partialPathIssue : Issue :=
  { severity := .low
    confidence := .high
    text := "Starting a process with a partial executable path" }

/-- The "some calls take an arg list, check the first part" step of the
partial-path plugin: `node = node.elts[0]` when the first argument is a
list literal (`IndexError` when it is empty), the argument itself
otherwise. -/
def firstCommandNode (node : PyExpr) : Except String PyExpr :=
  match node with
  | .listLit [] => .error "IndexError: list index out of range"
  | .listLit (e :: _) => .ok e
  | _ => .ok node

/-- The "make sure the param is a string literal and not a var name" step
of the partial-path plugin: fire iff the node is a string literal whose
first character is outside `delims` (`node.s[0]` raises `IndexError` on an
empty string literal; a non-literal node yields no finding). -/
def checkPartialPathNode (node : PyExpr) : Except String (Option Issue) :=
  match node with
  | .strLit s =>
      match s.toList with
      | [] => .error "IndexError: string index out of range"
      | c :: _ => if c ∈ partialPathDelims then .ok none else .ok (some partialPathIssue)
  | _ => .ok none

/-- Embeds `injection_shell.start_process_with_partial_path(context, config)`.
The context is given as the de-aliased qualified call name and the list of
positional argument nodes (`context.node.args`; `len(context.call_args)`
equals its length).  Python code that raises (`node.elts[0]` on an empty
list literal, `node.s[0]` on an empty string literal: both `IndexError`)
is embedded as `Except.error`; returning no finding is `Except.ok none`. -/
def startProcessWithPartialPath (config : Option ShellConfig) (qualName : String)
    (args : List PyExpr) : Except String (Option Issue) :=
  match config with
  | none => .ok none
  | some cfg =>
    match args with
    | [] => .ok none
    | a :: _ =>
      if qualName ∈ cfg.subprocess ∨ qualName ∈ cfg.shell ∨ qualName ∈ cfg.noShell then
        match firstCommandNode a with
        | .error e => .error e
        | .ok node => checkPartialPathNode node
      else .ok none

/-- A blacklist entry as held in `extman.blacklist` / the legacy settings:
only the `id` and `message` fields are touched by the embedded code. -/
structure BlEntry where
  id : String
  message : String
  deriving DecidableEq, Repr

/-- `item['message'].replace('{module}', '{name}')` applied to an import
entry by `_config_compat`. -/
def patchImportEntry (e : BlEntry) : BlEntry :=
  { e with message := e.message.replace "\x7bmodule\x7d" "\x7bname\x7d" }

/-- `item['message'].replace('{func}', '{name}')` applied to a call entry
by `_config_compat`. -/
def patchCallEntry (e : BlEntry) : BlEntry :=
  { e with message := e.message.replace "\x7bfunc\x7d" "\x7bname\x7d" }

/-- `blacklist.setdefault(key, []).extend(values)` on the insertion-ordered
dict modelled as an association list with unique keys. -/
def extendAssoc (l : List (String × List BlEntry)) (key : String)
    (values : List BlEntry) : List (String × List BlEntry) :=
  if (l.lookup key).isSome then
    l.map (fun p => if p.1 = key then (p.1, p.2 ++ values) else p)
  else
    l ++ [(key, values)]

/-- Embeds `BanditTestSet._config_compat(config)`.  The two legacy settings
are given as `Option`s: `none` models a falsy `get_setting` result (absent
setting), `some l` a truthy dict whose `bad_import_sets` / `bad_name_sets`
value is `l`.  Import entries are attached to the `Import`, `ImportFrom`
and `Call` node types, call entries to `Call` only. -/
def configCompat (blImports blCalls : Option (List BlEntry)) :
    List (String × List BlEntry) :=
  let withImports : List (String × List BlEntry) :=
    match blImports with
    | none => []
    | some imps =>
        let imps' := imps.map patchImportEntry
        extendAssoc (extendAssoc (extendAssoc [] "Import" imps') "ImportFrom" imps') "Call" imps'
  match blCalls with
  | none => withImports
  | some calls => extendAssoc withImports "Call" (calls.map patchCallEntry)

/-- The registry of the extension loader as the core consumes it:
registered plugin ids, the generic per-node-type blacklist data, and the
name→id lookup behind `extman.get_plugin_id`. -/
structure ExtManager where
  pluginIds : List String
  blacklist : List (String × List BlEntry)
  getPluginId : String → Option String

/-- `bandit.core.test_set.builtins`. -/
def builtinIds : List String := ["B001"]

/-- The inner `_get_id` of `BanditTestSet._get_filter`: normalize a profile
entry through the registry, passing unresolvable names through unchanged. -/
def getId (m : ExtManager) (v : String) : String :=
  match m.getPluginId v with
  | some i => i
  | none => v

/-- Embeds `BanditTestSet._get_filter(profile)`: normalize include/exclude
to id sets; an empty include falls back to all registered plugin ids plus
the builtins plus every generic blacklist entry id; then the exclusions are
removed. -/
def getFilter (m : ExtManager) (incList excList : List String) : Finset String :=
  let inc : Finset String := (incList.map (getId m)).toFinset
  let exc : Finset String := (excList.map (getId m)).toFinset
  let filtered : Finset String :=
    if inc = ∅ then
      (m.pluginIds ++ builtinIds ++
        (m.blacklist.map (fun p => p.2.map (fun t => t.id))).flatten).toFinset
    else inc
  filtered.filter (fun f => f ∉ exc)

/-- The synthetic B001 rule as `_load_builtins` dresses it up:
`_checks` (the targeted node types) and `_config` (the per-node-type
blacklist data). -/
structure B001Rule where
  checks : List String
  config : List (String × List BlEntry)
  deriving DecidableEq, Repr

/-- Embeds `BanditTestSet._load_builtins(filtering, config)`: when `B001`
survives the filter, build its config from the legacy compat data, or —
only when that is empty — from the generic blacklist data restricted to
ids in the filter, dropping node types whose entry list becomes empty. -/
def loadBuiltins (filtering : Finset String) (blImports blCalls : Option (List BlEntry))
    (generic : List (String × List BlEntry)) : Option B001Rule :=
  if "B001" ∈ filtering then
    let legacy := configCompat blImports blCalls
    let blacklist :=
      if legacy.isEmpty then
        generic.filterMap (fun p =>
          let values := p.2.filter (fun t => t.id ∈ filtering)
          if values.isEmpty then none else some (p.1, values))
      else legacy
    some { checks := blacklist.map (fun p => p.1), config := blacklist }
  else none

/-- An absolute filesystem path, as the list of its components: `[]` is the
root `/`, `["a", "b.py"]` is `/a/b.py`.  `os.path.split` maps a non-root
path to its `dropLast` (the head) and its last component (the tail), and
the root `/` to `('/', '')`. -/
abbrev AbsPath := List String

/-- The filesystem, as the set of paths of its regular files:
`os.path.isfile(p)` is membership. -/
abbrev FileSystem := List AbsPath

/-- Modelled from the stdlib collaborator `os.path.splitext(tail)[0]`:
drop the extension, which starts at the rightmost `'.'` provided that a
character before it is not a dot (a leading run of dots, as in `.bashrc`,
never begins an extension). -/
def splitextRoot (s : String) : String :=
  let cs := s.toList
  let leading := (cs.takeWhile (fun c => c = '.')).length
  let j := cs.reverse.indexOf '.'
  if j < cs.length then
    let pos := cs.length - 1 - j
    if leading < pos then ⟨cs.take pos⟩ else s
  else s

/-- The `while head != '/'` climb of
`bandit.core.utils.get_module_qualname_from_path`: while the current
directory holds an `__init__.py`, split off its last component and prepend
it to the accumulated qualified name (`qname.insert(0, tail)`); stop at
the first directory without the marker or at the root. -/
def climb (fs : FileSystem) (head : AbsPath) (qname : List String) : List String :=
  if h : head = [] then qname
  else
    if (head ++ ["__init__.py"]) ∈ fs then
      climb fs head.dropLast (head.getLast h :: qname)
    else qname
termination_by head.length
decreasing_by
  simp only [List.length_dropLast]
  have := List.length_pos.mpr h
  omega

/-- The same climb as a fuel-indexed loop, one unit of fuel per iteration
of the source's `while`: `none` models fuel exhaustion. -/
def climbFuel (fs : FileSystem) : Nat → AbsPath → List String → Option (List String)
  | 0, _, _ => none
  | fuel + 1, head, qname =>
    if h : head = [] then some qname
    else if (head ++ ["__init__.py"]) ∈ fs then
      climbFuel fs fuel head.dropLast (head.getLast h :: qname)
    else some qname

/-- Embeds `bandit.core.utils.get_module_qualname_from_path(path)` over
absolute paths (the `sys.path` membership test only emits a logging
warning and never changes the result, so it is omitted; for an absolute
path the split head is at least `/`, never the empty string, so only the
empty-tail `InvalidModulePath` case can arise).  The final qualified name
joins the climbed directory names and the extension-stripped filename
with dots. -/
def getModuleQualnameFromPath (fs : FileSystem) (path : AbsPath) : Except String String :=
  match path.getLast? with
  | none => .error "InvalidModulePath"
  | some tail =>
    if tail = "" then .error "InvalidModulePath"
    else
      let head := path.dropLast
      let qname := climb fs head [splitextRoot tail]
      .ok (String.intercalate "." qname)

/-! ## Helper lemmas -/

/-- The eight metacharacters of the regex character class in
`_has_special_characters`, in the order the spec lists them. -/
theorem special_char_set (c : Char) :
    c ∈ ['{', '|', '[', ';', '$', '*', '?', '`'] ↔
      c ∈ ['*', '?', '{', '[', '|', ';', '`', '$'] := by
  simp only [List.mem_cons, List.not_mem_nil, or_false]
  tauto

/-- `_has_special_characters` holds iff the command contains one of the
eight shell metacharacters. -/
theorem hasSpecialCharacters_iff (s : String) :
    hasSpecialCharacters s = true ↔
      ∃ c ∈ s.toList, c ∈ ['*', '?', '{', '[', '|', ';', '`', '$'] := by
  simp only [hasSpecialCharacters, List.any_eq_true, decide_eq_true_eq]
  constructor
  · rintro ⟨c, hc, hm⟩
    exact ⟨c, hc, (special_char_set c).mp hm⟩
  · rintro ⟨c, hc, hm⟩
    exact ⟨c, hc, (special_char_set c).mpr hm⟩

/-! ## Claim theorems -/

/-- C1 counterexample: resolving the three-segment target `a.b.c` with
alias `{a: "pkg"}` yields the bare final attribute `"c"`, not the claimed
`"pkg.b.c"`: the base of the outer attribute node is itself an attribute
node, not a simple name, so no prefix is attached. -/
theorem c1_counterexample :
    getCallName ⟨.attribute (.attribute (.name "a") "b") "c", []⟩ [("a", "pkg")] = "c" ∧
    getCallName ⟨.attribute (.attribute (.name "a") "b") "c", []⟩ [("a", "pkg")] ≠ "pkg.b.c" :=
  ⟨rfl, by decide⟩

/-- C1 (amended): qualified-call-name resolution is consistent only at
chain depth two.  A two-segment target whose base is a simple name
resolves to the alias-substituted (or raw) base joined to the final
attribute with a dot; any deeper chain (whose base is an attribute node,
not a simple name) resolves to the bare final attribute with no prefix. -/
theorem c1_call_name_depth (aliases : List (String × String)) :
    (∀ a attr args, getCallName ⟨.attribute (.name a) attr, args⟩ aliases =
        ((aliasLookup aliases a).getD a) ++ "." ++ attr) ∧
    (∀ v attr args, (∀ id, v ≠ PyExpr.name id) →
        getCallName ⟨.attribute v attr, args⟩ aliases = attr) := by
  constructor
  · intro a attr args
    simp only [getCallName]
    cases aliasLookup aliases a <;> simp [String.append_assoc]
  · intro v attr args hv
    cases v
    case name id => exact absurd rfl (hv id)
    all_goals rfl

/-- C1 witness: the amended theorem applied at the two-segment target
`a.b` and at the three-segment target `a.b.c`, both under `{a: "pkg"}`. -/
theorem c1_call_name_depth_witness :
    getCallName ⟨.attribute (.name "a") "b", []⟩ [("a", "pkg")] =
      ((aliasLookup [("a", "pkg")] "a").getD "a") ++ "." ++ "b" ∧
    getCallName ⟨.attribute (.attribute (.name "a") "b") "c", []⟩ [("a", "pkg")] = "c" :=
  ⟨(c1_call_name_depth [("a", "pkg")]).1 "a" "b" [],
   (c1_call_name_depth [("a", "pkg")]).2 (.attribute (.name "a") "b") "c" []
     (fun id h => PyExpr.noConfusion h)⟩

/-- C7: on a bare attribute access whose base is not a simple name, the
internal resolution failure is caught and no exception escapes, but the
code returns `"." ++ attr` — an extra leading dot — instead of the bare
attribute name promised by its own NOTE comment ("just return its base
name") and by the spec.  Evaluated at `Attribute(value=Call(...),
attr="foo")` with an empty alias table. -/
theorem c7_qual_attr_extra_dot :
    getQualAttr (.attribute (.other "Call") "foo") [] = ".foo" ∧
    getQualAttr (.attribute (.other "Call") "foo") [] ≠ "foo" :=
  ⟨rfl, by decide⟩

/-- C2: the shared severity escalation has exactly three tiers: a
non-literal first argument is HIGH; a literal string containing at least
one shell metacharacter among asterisk, question mark, opening brace,
opening bracket, pipe, semicolon, backtick and dollar is MEDIUM; a
literal string containing none of them is LOW.  In particular the literal
`"/bin/ls -l"` is LOW and the literal `"/bin/ls *"` is MEDIUM. -/
theorem c2_severity_escalation :
    (∀ e : PyExpr, (∀ s, e ≠ PyExpr.strLit s) → evaluateShellCall e = .high) ∧
    (∀ s, (∃ c ∈ s.toList, c ∈ ['*', '?', '{', '[', '|', ';', '`', '$']) →
        evaluateShellCall (.strLit s) = .medium) ∧
    (∀ s, (∀ c ∈ s.toList, c ∉ ['*', '?', '{', '[', '|', ';', '`', '$']) →
        evaluateShellCall (.strLit s) = .low) ∧
    evaluateShellCall (.strLit "/bin/ls -l") = .low ∧
    evaluateShellCall (.strLit "/bin/ls *") = .medium := by
  refine ⟨?_, ?_, ?_, by decide, by decide⟩
  · intro e he
    cases e
    case strLit s => exact absurd rfl (he s)
    all_goals rfl
  · intro s hs
    have h : hasSpecialCharacters s = true := (hasSpecialCharacters_iff s).mpr hs
    simp [evaluateShellCall, h]
  · intro s hs
    have h : hasSpecialCharacters s = false := by
      cases hh : hasSpecialCharacters s
      · rfl
      · obtain ⟨c, hc, hm⟩ := (hasSpecialCharacters_iff s).mp hh
        exact absurd hm (hs c hc)
    simp [evaluateShellCall, h]

/-- C2 witness: the escalation theorem applied at a computed (non-literal)
command, at the literal `"/bin/ls *"`, and at the literal `"/bin/ls -l"`. -/
theorem c2_severity_escalation_witness :
    evaluateShellCall (.other "BinOp") = .high ∧
    evaluateShellCall (.strLit "/bin/ls *") = .medium ∧
    evaluateShellCall (.strLit "/bin/ls -l") = .low :=
  ⟨c2_severity_escalation.1 (.other "BinOp") (fun s h => PyExpr.noConfusion h),
   c2_severity_escalation.2.1 "/bin/ls *" ⟨'*', by decide, by decide⟩,
   c2_severity_escalation.2.2.1 "/bin/ls -l" (by decide)⟩

/-- Unfolding of the partial-path plugin on a call with at least one
positional argument, with the first-element extraction and the
string-literal check sequenced through `Except.bind`. -/
theorem startProcessWithPartialPath_cons (cfg : ShellConfig) (qual : String)
    (b : PyExpr) (rest : List PyExpr) :
    startProcessWithPartialPath (some cfg) qual (b :: rest) =
      if qual ∈ cfg.subprocess ∨ qual ∈ cfg.shell ∨ qual ∈ cfg.noShell then
        (firstCommandNode b).bind checkPartialPathNode
      else .ok none := by
  have h : startProcessWithPartialPath (some cfg) qual (b :: rest) =
      if qual ∈ cfg.subprocess ∨ qual ∈ cfg.shell ∨ qual ∈ cfg.noShell then
        match firstCommandNode b with
        | .error e => .error e
        | .ok node => checkPartialPathNode node
      else .ok none := rfl
  rw [h]
  rcases firstCommandNode b with e | node <;> rfl

/-- The string-literal check fires iff the node is a literal string with a
first character outside the delimiter set. -/
theorem checkPartialPathNode_fires_iff (node : PyExpr) :
    checkPartialPathNode node = .ok (some partialPathIssue) ↔
      ∃ s c cs, node = PyExpr.strLit s ∧ s.toList = c :: cs ∧ c ∉ partialPathDelims := by
  rcases node with id | ⟨v, a⟩ | s | elts | d
  case strLit =>
    constructor
    · intro h
      rcases hs : s.toList with _ | ⟨c, cs⟩
      · rw [checkPartialPathNode.eq_def] at h
        simp only at h
        rw [hs] at h
        exact absurd h (by simp)
      · by_cases hc : c ∈ partialPathDelims
        · rw [checkPartialPathNode.eq_def] at h
          simp only at h
          rw [hs] at h
          simp [hc] at h
        · exact ⟨s, c, cs, rfl, hs, hc⟩
    · rintro ⟨s', c, cs, hs', hlist, hc⟩
      injection hs' with h
      subst h
      rw [checkPartialPathNode.eq_def]
      simp only
      rw [hlist]
      simp [hc]
  all_goals
    simp only [checkPartialPathNode]
    constructor
    · intro h
      exact absurd (Except.ok.inj h) (by simp)
    · rintro ⟨s, c, cs, hn, -, -⟩
      exact PyExpr.noConfusion hn

/-- C5: for a call to a function listed in any of the `subprocess`,
`shell` or `no_shell` sections, the partial-path rule fires — with the
LOW-severity, HIGH-confidence issue — exactly when the first positional
argument (or, for a literal list argument, its first element) is a
literal string whose first character is not a path separator or
relative-path marker.  In particular literal `"/bin/ls"` gives no
finding, literal `"gcc --version"` gives the LOW finding, and a
non-literal first argument gives no finding. -/
theorem c5_partial_path_heuristic (cfg : ShellConfig) (qual : String) (a : PyExpr)
    (rest : List PyExpr)
    (hlisted : qual ∈ cfg.subprocess ∨ qual ∈ cfg.shell ∨ qual ∈ cfg.noShell) :
    (startProcessWithPartialPath (some cfg) qual (a :: rest) = .ok (some partialPathIssue) ↔
      ∃ s c cs, firstCommandNode a = .ok (PyExpr.strLit s) ∧ s.toList = c :: cs ∧
        c ∉ partialPathDelims) ∧
    partialPathIssue.severity = .low ∧ partialPathIssue.confidence = .high ∧
    startProcessWithPartialPath (some cfg) qual (.strLit "/bin/ls" :: rest) = .ok none ∧
    startProcessWithPartialPath (some cfg) qual (.strLit "gcc --version" :: rest) =
      .ok (some partialPathIssue) ∧
    (∀ d, startProcessWithPartialPath (some cfg) qual (.other d :: rest) = .ok none) := by
  refine ⟨?_, rfl, rfl, ?_, ?_, ?_⟩
  · rw [startProcessWithPartialPath_cons, if_pos hlisted]
    rcases firstCommandNode a with e | node
    · constructor
      · intro hcontra
        exact Except.noConfusion hcontra
      · rintro ⟨s, c, cs, hs, -, -⟩
        exact Except.noConfusion hs
    · constructor
      · intro hfire
        obtain ⟨s, c, cs, hn, hlist, hc⟩ := (checkPartialPathNode_fires_iff node).mp hfire
        exact ⟨s, c, cs, by rw [hn], hlist, hc⟩
      · rintro ⟨s, c, cs, hs, hlist, hc⟩
        have hn : node = PyExpr.strLit s := Except.ok.inj hs
        exact (checkPartialPathNode_fires_iff node).mpr ⟨s, c, cs, hn, hlist, hc⟩
  · rw [startProcessWithPartialPath_cons, if_pos hlisted]
    rfl
  · rw [startProcessWithPartialPath_cons, if_pos hlisted]
    rfl
  · intro d
    rw [startProcessWithPartialPath_cons, if_pos hlisted]
    rfl

/-- C5 witness: the heuristic theorem applied with `subprocess.Popen`
configured in the `subprocess` section, at the literal `"gcc --version"`
(LOW finding), at the literal `"/bin/ls"` (no finding), and at a
non-literal argument (no finding). -/
theorem c5_partial_path_heuristic_witness :
    startProcessWithPartialPath (some ⟨["subprocess.Popen"], [], []⟩) "subprocess.Popen"
        [.strLit "gcc --version"] = .ok (some partialPathIssue) ∧
    startProcessWithPartialPath (some ⟨["subprocess.Popen"], [], []⟩) "subprocess.Popen"
        [.strLit "/bin/ls"] = .ok none ∧
    startProcessWithPartialPath (some ⟨["subprocess.Popen"], [], []⟩) "subprocess.Popen"
        [.other "Name"] = .ok none :=
  ⟨(c5_partial_path_heuristic ⟨["subprocess.Popen"], [], []⟩ "subprocess.Popen"
      (.strLit "gcc --version") [] (Or.inl (by decide))).2.2.2.2.1,
   (c5_partial_path_heuristic ⟨["subprocess.Popen"], [], []⟩ "subprocess.Popen"
      (.strLit "/bin/ls") [] (Or.inl (by decide))).2.2.2.1,
   (c5_partial_path_heuristic ⟨["subprocess.Popen"], [], []⟩ "subprocess.Popen"
      (.other "Name") [] (Or.inl (by decide))).2.2.2.2.2 "Name"⟩

/-- C6 counterexample: a configured process-spawning call whose first
positional argument is an *empty* literal list does not evaluate to "no
finding" — `node.elts[0]` raises `IndexError`, embedded as an `error`
result. -/
theorem c6_counterexample :
    startProcessWithPartialPath (some ⟨["subprocess.Popen"], [], []⟩) "subprocess.Popen"
        [.listLit []] = .error "IndexError: list index out of range" := by
  rw [startProcessWithPartialPath_cons, if_pos (Or.inl (by decide))]
  rfl

/-- C6 (amended): for a configured process-spawning call whose first
positional argument is a literal list, a non-literal first element is a
handled branch that yields no finding and raises no exception, but an
empty literal list raises `IndexError` (isolated later by the
dispatcher's per-rule fault isolation, not a handled branch of the
rule). -/
theorem c6_list_edge_cases (cfg : ShellConfig) (qual : String) (rest : List PyExpr)
    (hlisted : qual ∈ cfg.subprocess ∨ qual ∈ cfg.shell ∨ qual ∈ cfg.noShell) :
    (∀ e elts, (∀ s, e ≠ PyExpr.strLit s) →
        startProcessWithPartialPath (some cfg) qual (.listLit (e :: elts) :: rest) = .ok none) ∧
    startProcessWithPartialPath (some cfg) qual (.listLit [] :: rest) =
      .error "IndexError: list index out of range" := by
  constructor
  · intro e elts he
    rw [startProcessWithPartialPath_cons, if_pos hlisted]
    show checkPartialPathNode e = .ok none
    rcases e with id | ⟨v, a⟩ | s | elts' | d
    · rfl
    · rfl
    · exact absurd rfl (he s)
    · rfl
    · rfl
  · rw [startProcessWithPartialPath_cons, if_pos hlisted]
    rfl

/-- C6 witness: the amended theorem applied with `os.system` configured
in the `shell` section, at a list whose first element is a variable name
(no finding, no exception) and at an empty list (IndexError). -/
theorem c6_list_edge_cases_witness :
    startProcessWithPartialPath (some ⟨[], ["os.system"], []⟩) "os.system"
        [.listLit [.name "cmd"]] = .ok none ∧
    startProcessWithPartialPath (some ⟨[], ["os.system"], []⟩) "os.system"
        [.listLit []] = .error "IndexError: list index out of range" :=
  ⟨(c6_list_edge_cases ⟨[], ["os.system"], []⟩ "os.system" []
      (Or.inr (Or.inl (by decide)))).1 (.name "cmd") [] (fun s h => PyExpr.noConfusion h),
   (c6_list_edge_cases ⟨[], ["os.system"], []⟩ "os.system" []
      (Or.inr (Or.inl (by decide)))).2⟩

/-- When either legacy flat setting is present (a truthy `get_setting`
result), the compat blacklist built by `_config_compat` is non-empty. -/
theorem configCompat_ne_empty (blImports blCalls : Option (List BlEntry))
    (h : blImports.isSome ∨ blCalls.isSome) :
    (configCompat blImports blCalls).isEmpty = false := by
  rcases blImports with _ | imps <;> rcases blCalls with _ | calls <;>
    simp [configCompat, extendAssoc, List.lookup] at h ⊢

/-- C3: when the legacy flat deny-list settings are present and
non-empty, the synthetic B001 rule is built exclusively from the legacy
data: the generic per-node-type blacklist data source contributes nothing
(the result does not depend on it at all), and the rule's config is
exactly the `_config_compat` output. -/
theorem c3_legacy_precedence (filtering : Finset String)
    (blImports blCalls : Option (List BlEntry))
    (generic generic' : List (String × List BlEntry))
    (h : (∃ l, blImports = some l ∧ l ≠ []) ∨ (∃ l, blCalls = some l ∧ l ≠ [])) :
    loadBuiltins filtering blImports blCalls generic =
      loadBuiltins filtering blImports blCalls generic' ∧
    ("B001" ∈ filtering →
      loadBuiltins filtering blImports blCalls generic =
        some { checks := (configCompat blImports blCalls).map (fun p => p.1),
               config := configCompat blImports blCalls }) := by
  have hsome : blImports.isSome ∨ blCalls.isSome := by
    rcases h with ⟨l, hl, -⟩ | ⟨l, hl, -⟩
    · exact Or.inl (by simp [hl])
    · exact Or.inr (by simp [hl])
  have hne := configCompat_ne_empty blImports blCalls hsome
  constructor
  · simp [loadBuiltins, hne]
  · intro hb
    simp [loadBuiltins, hne, hb]

/-- C3 witness: the precedence theorem applied with a one-entry legacy
`blacklist_calls` setting, a one-entry generic blacklist versus an empty
one, and a filter containing `B001`. -/
theorem c3_legacy_precedence_witness :
    loadBuiltins {"B001"} none (some [⟨"B304", "use of telnet"⟩])
        [("Call", [⟨"B999", "generic entry"⟩])] =
      loadBuiltins {"B001"} none (some [⟨"B304", "use of telnet"⟩]) [] ∧
    ("B001" ∈ ({"B001"} : Finset String) →
      loadBuiltins {"B001"} none (some [⟨"B304", "use of telnet"⟩])
          [("Call", [⟨"B999", "generic entry"⟩])] =
        some { checks := (configCompat none (some [⟨"B304", "use of telnet"⟩])).map
                 (fun p => p.1),
               config := configCompat none (some [⟨"B304", "use of telnet"⟩]) }) :=
  c3_legacy_precedence {"B001"} none (some [⟨"B304", "use of telnet"⟩])
    [("Call", [⟨"B999", "generic entry"⟩])] []
    (Or.inr ⟨[⟨"B304", "use of telnet"⟩], rfl, by simp⟩)

/-- C8: active-rule-set computation commutes with splitting the exclude
set: excluding `E1 ∪ E2` in one pass equals excluding `E1` and then
removing `E2`, whenever the members of `E2` are canonical rule ids (fixed
by the registry's name→id normalization). -/
theorem c8_filter_exclude_union (m : ExtManager) (incL e1 e2 : List String)
    (h : ∀ e ∈ e2, getId m e = e) :
    getFilter m incL (e1 ++ e2) = getFilter m incL e1 \ e2.toFinset := by
  have h2 : e2.map (getId m) = e2 := by
    conv_rhs => rw [← List.map_id e2]
    exact List.map_congr_left h
  ext x
  simp only [getFilter, List.map_append, h2, List.toFinset_append, Finset.mem_filter,
    Finset.mem_sdiff, Finset.mem_union, List.mem_toFinset]
  tauto

/-- C8 witness: the commutation theorem applied to a registry with one
plugin and one generic blacklist entry, `I = ∅`, `E1 = ["B101"]`,
`E2 = ["B302"]` (the lookup maps no names, so ids are already
canonical). -/
theorem c8_filter_exclude_union_witness :
    getFilter ⟨["B101"], [("Call", [⟨"B302", "m"⟩])], fun _ => none⟩ [] (["B101"] ++ ["B302"]) =
      getFilter ⟨["B101"], [("Call", [⟨"B302", "m"⟩])], fun _ => none⟩ [] ["B101"] \
        (["B302"] : List String).toFinset :=
  c8_filter_exclude_union ⟨["B101"], [("Call", [⟨"B302", "m"⟩])], fun _ => none⟩ []
    ["B101"] ["B302"] (fun e _ => rfl)

/-- Every id of an entry of the generic blacklist data occurs in the
flattened id list that `_get_filter` appends for an empty include. -/
theorem mem_blacklistIds (m : ExtManager) {p : String × List BlEntry} {t : BlEntry}
    (hp : p ∈ m.blacklist) (ht : t ∈ p.2) :
    t.id ∈ (m.blacklist.map (fun q => q.2.map (fun e => e.id))).flatten := by
  rw [List.mem_flatten]
  exact ⟨p.2.map (fun e => e.id), List.mem_map_of_mem _ hp, List.mem_map_of_mem _ ht⟩

/-- Membership in the active set for an empty include and a single
excluded canonical id `x`: exactly the base ids (plugins, builtins,
generic blacklist entry ids) different from `x`. -/
theorem mem_getFilter_exclude_one (m : ExtManager) (x : String) (hx : getId m x = x)
    (y : String) :
    y ∈ getFilter m [] [x] ↔
      (y ∈ m.pluginIds ∨ y ∈ builtinIds ∨
        y ∈ (m.blacklist.map (fun q => q.2.map (fun e => e.id))).flatten) ∧ y ≠ x := by
  simp [getFilter, hx, List.mem_toFinset, or_assoc]

/-- C10: with an empty include list, excluding the id `x` of an
individual generic-blacklist entry (canonical and distinct from `B001`)
under absent legacy settings yields a synthetic B001 rule whose config is
the generic data with exactly the `x`-entries filtered out of every node
type, and whose target node types are exactly the node types that kept at
least one entry. -/
theorem c10_exclude_single_entry (m : ExtManager) (x : String)
    (hx : getId m x = x) (hb001 : x ≠ "B001") :
    loadBuiltins (getFilter m [] [x]) none none m.blacklist =
      some { checks := (m.blacklist.filterMap (fun p =>
               let values := p.2.filter (fun t => t.id ≠ x)
               if values.isEmpty then none else some (p.1, values))).map (fun p => p.1),
             config := m.blacklist.filterMap (fun p =>
               let values := p.2.filter (fun t => t.id ≠ x)
               if values.isEmpty then none else some (p.1, values)) } := by
  have hB : "B001" ∈ getFilter m [] [x] := by
    rw [mem_getFilter_exclude_one m x hx]
    exact ⟨Or.inr (Or.inl (by simp [builtinIds])), fun hcontra => hb001 hcontra.symm⟩
  have hmap : m.blacklist.filterMap (fun p =>
        let values := p.2.filter (fun t => t.id ∈ getFilter m [] [x])
        if values.isEmpty then none else some (p.1, values)) =
      m.blacklist.filterMap (fun p =>
        let values := p.2.filter (fun t => t.id ≠ x)
        if values.isEmpty then none else some (p.1, values)) := by
    refine List.filterMap_congr (fun p hp => ?_)
    have hfilter : p.2.filter (fun t => t.id ∈ getFilter m [] [x]) =
        p.2.filter (fun t => t.id ≠ x) := by
      refine List.filter_congr (fun t ht => ?_)
      refine decide_eq_decide.mpr ?_
      constructor
      · intro hmem
        exact ((mem_getFilter_exclude_one m x hx t.id).mp hmem).2
      · intro hne
        exact (mem_getFilter_exclude_one m x hx t.id).mpr
          ⟨Or.inr (Or.inr (mem_blacklistIds m hp ht)), hne⟩
    simp only [hfilter]
  simp only [loadBuiltins, if_pos hB]
  simp only [configCompat, List.isEmpty_nil, if_true]
  rw [hmap]

/-- C10 witness: the exclusion theorem applied to a registry whose
generic blacklist maps `Call` to entries `B302, B303` and `Import` to the
single entry `B302`, excluding `B302`: `B303` survives under `Call` and
the `Import` node type is dropped. -/
theorem c10_exclude_single_entry_witness :
    loadBuiltins
        (getFilter ⟨["B101"], [("Call", [⟨"B302", "a"⟩, ⟨"B303", "b"⟩]),
           ("Import", [⟨"B302", "a"⟩])], fun _ => none⟩ [] ["B302"]) none none
        [("Call", [⟨"B302", "a"⟩, ⟨"B303", "b"⟩]), ("Import", [⟨"B302", "a"⟩])] =
      some { checks := (([("Call", [⟨"B302", "a"⟩, ⟨"B303", "b"⟩]),
               ("Import", [⟨"B302", "a"⟩])] : List (String × List BlEntry)).filterMap (fun p =>
                 let values := p.2.filter (fun t => t.id ≠ "B302")
                 if values.isEmpty then none else some (p.1, values))).map (fun p => p.1),
             config := ([("Call", [⟨"B302", "a"⟩, ⟨"B303", "b"⟩]),
               ("Import", [⟨"B302", "a"⟩])] : List (String × List BlEntry)).filterMap (fun p =>
                 let values := p.2.filter (fun t => t.id ≠ "B302")
                 if values.isEmpty then none else some (p.1, values)) } :=
  c10_exclude_single_entry
    ⟨["B101"], [("Call", [⟨"B302", "a"⟩, ⟨"B303", "b"⟩]), ("Import", [⟨"B302", "a"⟩])],
     fun _ => none⟩ "B302" rfl (by decide)

/-- Unfolding of the climb at the root directory. -/
theorem climb_nil (fs : FileSystem) (qname : List String) : climb fs [] qname = qname := by
  rw [climb.eq_def, dif_pos rfl]

/-- Unfolding of the climb at a non-root directory. -/
theorem climb_ne (fs : FileSystem) (head : AbsPath) (qname : List String) (hh : head ≠ []) :
    climb fs head qname =
      if (head ++ ["__init__.py"]) ∈ fs then
        climb fs head.dropLast (head.getLast hh :: qname)
      else qname := by
  rw [climb.eq_def, dif_neg hh]

/-- Unfolding of the fuel-indexed climb at a non-root directory. -/
theorem climbFuel_succ_ne (fs : FileSystem) (n : Nat) (head : AbsPath) (qname : List String)
    (hh : head ≠ []) :
    climbFuel fs (n + 1) head qname =
      if (head ++ ["__init__.py"]) ∈ fs then
        climbFuel fs n head.dropLast (head.getLast hh :: qname)
      else some qname := by
  rw [climbFuel, dif_neg hh]

/-- Any fuel exceeding the directory depth lets the fuel-indexed climb
complete with the value of the total climb. -/
theorem climbFuel_sufficient (fs : FileSystem) :
    ∀ (fuel : Nat) (head : AbsPath) (qname : List String), head.length < fuel →
      climbFuel fs fuel head qname = some (climb fs head qname) := by
  intro fuel
  induction fuel with
  | zero => exact fun head qname h => absurd h (by omega)
  | succ n ih =>
    intro head qname h
    by_cases hh : head = []
    · subst hh
      rw [climb_nil, climbFuel, dif_pos rfl]
    · rw [climbFuel_succ_ne fs n head qname hh, climb_ne fs head qname hh]
      by_cases hm : (head ++ ["__init__.py"]) ∈ fs
      · rw [if_pos hm, if_pos hm]
        have hlen : head.dropLast.length < n := by
          have hpos := List.length_pos.mpr hh
          simp only [List.length_dropLast]
          omega
        exact ih head.dropLast (head.getLast hh :: qname) hlen
      · rw [if_neg hm, if_neg hm]

/-- C9: for an absolute input path the package-marker climb of
`get_module_qualname_from_path` terminates: each iteration strictly
shortens the remaining directory prefix by one component, so the
unbounded `while` loop — embedded as the fuel-indexed `climbFuel` —
completes (never exhausts its fuel) as soon as the fuel exceeds the
directory depth, and agrees with the total `climb` used by
`getModuleQualnameFromPath`. -/
theorem c9_module_qualname_terminates (fs : FileSystem) (fuel : Nat) (head : AbsPath)
    (qname : List String) (h : head.length < fuel) :
    climbFuel fs fuel head qname = some (climb fs head qname) :=
  climbFuel_sufficient fs fuel head qname h

/-- The `missingmid` tree of the spec example, rooted under `/root`:
markers exist in `missingmid`, `missingmid/a/b` and `missingmid/a/b/c`,
but not in `missingmid/a`. -/
def missingmidFS : FileSystem :=
  [["root", "missingmid", "__init__.py"],
   ["root", "missingmid", "a", "b", "__init__.py"],
   ["root", "missingmid", "a", "b", "c", "__init__.py"],
   ["root", "missingmid", "a", "b", "c", "test_missingmid.py"]]

/-- C4: the module-name climb is contiguous from the leaf: at a directory
with no package marker the climb stops and returns the accumulated name
unchanged — whatever markers exist further up — and a directory with a
marker contributes its name and passes control to its parent.  On the
`missingmid` tree (marker missing exactly at `missingmid/a`), the input
`/root/missingmid/a/b/c/test_missingmid.py` yields exactly
`"b.c.test_missingmid"`. -/
theorem c4_contiguous_climb :
    (∀ (fs : FileSystem) (head : AbsPath) (qname : List String) (h : head ≠ []),
      (head ++ ["__init__.py"]) ∉ fs → climb fs head qname = qname) ∧
    (∀ (fs : FileSystem) (head : AbsPath) (qname : List String) (h : head ≠ []),
      (head ++ ["__init__.py"]) ∈ fs →
        climb fs head qname = climb fs head.dropLast (head.getLast h :: qname)) ∧
    getModuleQualnameFromPath missingmidFS
        ["root", "missingmid", "a", "b", "c", "test_missingmid.py"] =
      .ok "b.c.test_missingmid" := by
  refine ⟨?_, ?_, ?_⟩
  · intro fs head qname h hnot
    rw [climb_ne fs head qname h, if_neg hnot]
  · intro fs head qname h hmem
    rw [climb_ne fs head qname h, if_pos hmem]
  · have hval : climbFuel missingmidFS 6 ["root", "missingmid", "a", "b", "c"]
        ["test_missingmid"] = some ["b", "c", "test_missingmid"] := by decide
    have h6 := climbFuel_sufficient missingmidFS 6 ["root", "missingmid", "a", "b", "c"]
      ["test_missingmid"] (by decide)
    rw [hval] at h6
    have hclimb := (Option.some.inj h6).symm
    rw [show getModuleQualnameFromPath missingmidFS
          ["root", "missingmid", "a", "b", "c", "test_missingmid.py"] =
        Except.ok (String.intercalate "."
          (climb missingmidFS ["root", "missingmid", "a", "b", "c"] ["test_missingmid"]))
      from rfl, hclimb]
    rfl

/-- C4 witness: the stop rule applied at directory `/root/missingmid/a`
(no marker there in the `missingmid` tree), where the climb returns the
accumulated `["b", "c", "test_missingmid"]` unchanged. -/
theorem c4_contiguous_climb_witness :
    climb missingmidFS ["root", "missingmid", "a"] ["b", "c", "test_missingmid"] =
      ["b", "c", "test_missingmid"] :=
  c4_contiguous_climb.1 missingmidFS ["root", "missingmid", "a"]
    ["b", "c", "test_missingmid"] (by decide) (by decide)

/-- C9 witness: the termination theorem applied on the `missingmid` tree
at directory depth 5 with fuel 6. -/
theorem c9_module_qualname_terminates_witness :
    climbFuel missingmidFS 6 ["root", "missingmid", "a", "b", "c"] ["test_missingmid"] =
      some (climb missingmidFS ["root", "missingmid", "a", "b", "c"] ["test_missingmid"]) :=
  c9_module_qualname_terminates missingmidFS 6 ["root", "missingmid", "a", "b", "c"]
    ["test_missingmid"] (by decide)
